import Mathlib

/-!
Verification development for the Bedrock load-testing repository.

The embedding below translates the metrics aggregation engine
(`utils/metrics_collector.py`) and the concurrent load driver
(`scripts/foundation_model_test.py`) into Lean:

* Python floats are modelled as rationals (`ℚ`); the claims under study are
  about exact counting, summation, and interpolation, not rounding.
* Python dicts (`defaultdict(list)`, `defaultdict(float)`, `defaultdict(int)`)
  are modelled as total functions with the default as base value; a dict write
  is a pointwise functional update.
* `time.time()` reads are modelled by passing the current clock value as an
  explicit argument.
* A Python method that can raise is modelled as returning `Except String`,
  with the error string naming the exception class.
-/

unseal Rat.mul Rat.add Rat.inv Rat.sub Rat.ofScientific

/-- Function-update helper: the shallow model of a Python dict assignment
`m[k] = v` on a defaultdict modelled as a total function. -/
def updMap {α : Type} (m : String → α) (k : String) (v : α) : String → α :=
  fun x => if x = k then v else m x

/-- One outcome record, the `request_data` dict appended by
`MetricsCollector.record_request` (metrics_collector.py lines 82-93). -/
structure RequestRecord where
  timestamp : ℚ
  requestType : String
  latency : ℚ
  success : Bool
  tokensInput : Nat
  tokensOutput : Nat
  cost : ℚ
  error : Option String
deriving DecidableEq, Repr

/-- One error record, appended by `record_request` when the attempt failed
with a truthy error (metrics_collector.py lines 106-111). -/
structure ErrorRecord where
  timestamp : ℚ
  requestType : String
  error : String
deriving DecidableEq, Repr

/-- State of a `MetricsCollector` instance (metrics_collector.py lines 24-37). -/
structure MetricsState where
  requestMetrics : List RequestRecord
  metrics : String → List ℚ
  errorMetrics : List ErrorRecord
  costMetrics : String → ℚ
  systemMetrics : String → List (ℚ × ℚ)
  monitoringActive : Bool
  startTime : Option ℚ
  endTime : Option ℚ

/-- Freshly constructed collector: empty lists, empty default dicts, no
start or end time (metrics_collector.py `__init__`). -/
def initialState : MetricsState :=
  { requestMetrics := []
    metrics := fun _ => []
    errorMetrics := []
    costMetrics := fun _ => 0
    systemMetrics := fun _ => []
    monitoringActive := false
    startTime := none
    endTime := none }

/-- Python truthiness of an optional float: `None` and `0.0` are falsy. -/
def truthyQ : Option ℚ → Bool
  | none => false
  | some x => decide (x ≠ 0)

/-- Python truthiness of an optional string: `None` and the empty string are
falsy. -/
def truthyStr : Option String → Bool
  | none => false
  | some s => decide (s ≠ "")

/-- `MetricsCollector.start_monitoring` (metrics_collector.py lines 42-52):
records the start time and activates monitoring.  The sampler thread itself is
modelled separately by `monitorIteration`. -/
def startMonitoring (t : ℚ) (s : MetricsState) : MetricsState :=
  { s with startTime := some t, monitoringActive := true }

/-- `MetricsCollector.stop_monitoring` (metrics_collector.py lines 54-62). -/
def stopMonitoring (t : ℚ) (s : MetricsState) : MetricsState :=
  { s with endTime := some t, monitoringActive := false }

/-- `MetricsCollector.record_request` (metrics_collector.py lines 64-111),
the straight-line body executed under `self.lock`.  The record argument also
carries the timestamp taken at the top of the locked block. -/
def recordRequest (a : RequestRecord) (s : MetricsState) : MetricsState :=
  let m1 := updMap s.metrics (a.requestType ++ "_latency")
      (s.metrics (a.requestType ++ "_latency") ++ [a.latency])
  let m2 := updMap m1 (a.requestType ++ "_success")
      (m1 (a.requestType ++ "_success") ++ [if a.success then 1 else 0])
  let m3 := updMap m2 (a.requestType ++ "_tokens_input")
      (m2 (a.requestType ++ "_tokens_input") ++ [(a.tokensInput : ℚ)])
  let m4 := updMap m3 (a.requestType ++ "_tokens_output")
      (m3 (a.requestType ++ "_tokens_output") ++ [(a.tokensOutput : ℚ)])
  let c1 := updMap s.costMetrics a.requestType (s.costMetrics a.requestType + a.cost)
  let c2 := updMap c1 "total" (c1 "total" + a.cost)
  let s1 := { s with
    requestMetrics := s.requestMetrics ++ [a]
    metrics := m4
    costMetrics := c2 }
  if !a.success && truthyStr a.error then
    { s1 with errorMetrics :=
        s1.errorMetrics ++ [⟨a.timestamp, a.requestType, a.error.getD ""⟩] }
  else s1

/-- A sequence of `record_request` calls applied in order. -/
def applyCalls (calls : List RequestRecord) (s : MetricsState) : MetricsState :=
  calls.foldl (fun st c => recordRequest c st) s

/-- `MetricsCollector._percentile` (metrics_collector.py lines 310-324).
`int(index)` in the source truncates toward zero; for the ranks that arise
with `0 ≤ percentile` it coincides with the floor used here. -/
def percentileFn (data : List ℚ) (percentile : ℚ) : ℚ :=
  if data = [] then 0
  else
    let sortedData := List.insertionSort (· ≤ ·) data
    let index : ℚ := (percentile / 100) * ((sortedData.length : ℚ) - 1)
    if index.den = 1 then sortedData.getD index.num.toNat 0
    else
      let lower := sortedData.getD (⌊index⌋).toNat 0
      let upper := sortedData.getD ((⌊index⌋).toNat + 1) 0
      lower + (upper - lower) * (index - ⌊index⌋)

/-- Linear-interpolation percentile as worded in the specification: rank
`(p/100)*(n-1)` over the sorted list; an integer rank selects that element,
otherwise the floor and ceiling elements are interpolated by the fractional
part.  Written from the spec text, to be compared with `percentileFn`. -/
def percentileSpec (data : List ℚ) (p : ℚ) : ℚ :=
  if data = [] then 0
  else
    let sortedData := List.insertionSort (· ≤ ·) data
    let rank : ℚ := (p / 100) * ((sortedData.length : ℚ) - 1)
    if (⌊rank⌋ : ℚ) = rank then sortedData.getD (⌊rank⌋).toNat 0
    else
      let lo := sortedData.getD (⌊rank⌋).toNat 0
      let hi := sortedData.getD (⌈rank⌉).toNat 0
      lo + (hi - lo) * (rank - ⌊rank⌋)

/-- `statistics.mean` over the nonempty latency lists used by the summary. -/
def meanQ (l : List ℚ) : ℚ := l.sum / l.length

/-- `statistics.median`: middle element of the sorted list, or the average of
the two middle elements for even length. -/
def medianQ (l : List ℚ) : ℚ :=
  let s := List.insertionSort (· ≤ ·) l
  let n := s.length
  if n % 2 = 1 then s.getD (n / 2) 0
  else (s.getD (n / 2 - 1) 0 + s.getD (n / 2) 0) / 2

/-- Python `min` over a nonempty list (0 as an unused default for `[]`). -/
def listMinQ : List ℚ → ℚ
  | [] => 0
  | x :: xs => xs.foldl min x

/-- Python `max` over a nonempty list (0 as an unused default for `[]`). -/
def listMaxQ : List ℚ → ℚ
  | [] => 0
  | x :: xs => xs.foldl max x

/-- The `overall` block of `get_performance_summary`
(metrics_collector.py lines 165-172). -/
structure OverallStats where
  totalRequests : Nat
  successfulRequests : Nat
  failedRequests : Nat
  successRate : ℚ
  testDuration : ℚ
  requestsPerSecond : ℚ
deriving DecidableEq, Repr

/-- One per-request-type block of `get_performance_summary`
(metrics_collector.py lines 182-192). -/
structure TypeStats where
  totalRequests : Nat
  successfulRequests : Nat
  successRate : ℚ
  avgLatency : ℚ
  medianLatency : ℚ
  p95Latency : ℚ
  p99Latency : ℚ
  minLatency : ℚ
  maxLatency : ℚ
deriving DecidableEq, Repr

/-- Result shape of `get_performance_summary`. -/
structure PerfSummary where
  overall : OverallStats
  perType : List (String × TypeStats)
deriving DecidableEq, Repr

/-- `sum(1 for r in self.request_metrics if r.success)`
(metrics_collector.py line 162). -/
def succCount (s : MetricsState) : Nat :=
  (s.requestMetrics.filter (·.success)).length

/-- `successful_requests / total_requests if total_requests > 0 else 0`
(metrics_collector.py line 169). -/
def succRate (s : MetricsState) : ℚ :=
  if 0 < s.requestMetrics.length then
    (succCount s : ℚ) / s.requestMetrics.length
  else 0

/-- `self.end_time - self.start_time if self.end_time else time.time() -
self.start_time` (metrics_collector.py line 170).  Subtracting from an absent
start time is Python `float - None`, a `TypeError`. -/
def durationResult (now : ℚ) (s : MetricsState) : Except String ℚ :=
  if truthyQ s.endTime then
    match s.startTime with
    | none => .error "TypeError"
    | some st => .ok (s.endTime.getD 0 - st)
  else
    match s.startTime with
    | none => .error "TypeError"
    | some st => .ok (now - st)

/-- `total_requests / (self.end_time - self.start_time) if self.end_time and
self.start_time else 0` (metrics_collector.py line 171).  Dividing by a zero
span is Python `ZeroDivisionError`. -/
def rpsResult (s : MetricsState) : Except String ℚ :=
  if truthyQ s.endTime && truthyQ s.startTime then
    let d := s.endTime.getD 0 - s.startTime.getD 0
    if d = 0 then .error "ZeroDivisionError"
    else .ok ((s.requestMetrics.length : ℚ) / d)
  else .ok 0

/-- The latencies of the successful attempts of one request type
(metrics_collector.py line 179). -/
def succLats (s : MetricsState) (t : String) : List ℚ :=
  ((s.requestMetrics.filter (fun r => r.requestType = t)).filter (·.success)).map
    (·.latency)

/-- The per-request-type blocks of `get_performance_summary`
(metrics_collector.py lines 174-192): iterate the distinct request types, and
emit a block only when the type has at least one successful latency. -/
def perTypeStats (s : MetricsState) : List (String × TypeStats) :=
  ((s.requestMetrics.map (·.requestType)).dedup).filterMap (fun t =>
    let typeReqs := s.requestMetrics.filter (fun r => r.requestType = t)
    let lats := (typeReqs.filter (·.success)).map (·.latency)
    if lats.isEmpty then none
    else some (t,
      { totalRequests := typeReqs.length
        successfulRequests := lats.length
        successRate := (lats.length : ℚ) / typeReqs.length
        avgLatency := meanQ lats
        medianLatency := medianQ lats
        p95Latency := percentileFn lats 95
        p99Latency := percentileFn lats 99
        minLatency := listMinQ lats
        maxLatency := listMaxQ lats }))

/-- `MetricsCollector.get_performance_summary` (metrics_collector.py lines
155-194).  The `overall` dict entries are evaluated in source order, so a
`TypeError` from the duration expression precedes a possible
`ZeroDivisionError` from the requests-per-second expression. -/
def getPerformanceSummary (now : ℚ) (s : MetricsState) : Except String PerfSummary :=
  match durationResult now s with
  | .error e => .error e
  | .ok dur =>
    match rpsResult s with
    | .error e => .error e
    | .ok rps =>
      .ok
        { overall :=
            { totalRequests := s.requestMetrics.length
              successfulRequests := succCount s
              failedRequests := s.requestMetrics.length - succCount s
              successRate := succRate s
              testDuration := dur
              requestsPerSecond := rps }
          perType := perTypeStats s }

/-- Per-type token block of `get_cost_summary`
(metrics_collector.py lines 202-213). -/
structure TokenStats where
  totalInputTokens : Nat
  totalOutputTokens : Nat
  totalTokens : Nat
deriving DecidableEq, Repr

/-- Result shape of `get_cost_summary`. -/
structure CostSummary where
  costs : String → ℚ
  tokens : List (String × TokenStats)

/-- `MetricsCollector.get_cost_summary` (metrics_collector.py lines 196-218). -/
def getCostSummary (s : MetricsState) : CostSummary :=
  { costs := s.costMetrics
    tokens := ((s.requestMetrics.map (·.requestType)).dedup).map (fun t =>
      let typeReqs := s.requestMetrics.filter (fun r => r.requestType = t)
      let ti := (typeReqs.map (·.tokensInput)).sum
      let tOut := (typeReqs.map (·.tokensOutput)).sum
      (t, { totalInputTokens := ti, totalOutputTokens := tOut,
            totalTokens := ti + tOut })) }

/-- Result shape of `get_error_summary`. -/
structure ErrorSummary where
  totalErrors : Nat
  errorCounts : String → Nat
  errorsByType : String → List String

/-- `MetricsCollector.get_error_summary` (metrics_collector.py lines 220-234):
fold over the error records, counting occurrences per message and listing
messages per request type. -/
def getErrorSummary (s : MetricsState) : ErrorSummary :=
  let counts := s.errorMetrics.foldl
    (fun f e => updMap f e.error (f e.error + 1)) (fun _ => 0)
  let byType := s.errorMetrics.foldl
    (fun f e => updMap f e.requestType (f e.requestType ++ [e.error])) (fun _ => [])
  { totalErrors := s.errorMetrics.length
    errorCounts := counts
    errorsByType := byType }

/-!
Resource sampler (`MetricsCollector._monitor_system_resources`,
metrics_collector.py lines 113-153).  One loop iteration samples the host
counters, appends one `(timestamp, value)` point per metric key, then trims
every stored series to at most 1000 points by popping from the left.
-/

/-- The data read by one sampler iteration.  `hasDisk` models
`psutil.disk_io_counters()` returning `None` on hosts without disk counters. -/
structure IterData where
  ts : ℚ
  cpu : ℚ
  memPercent : ℚ
  memUsedGB : ℚ
  netSent : ℚ
  netRecv : ℚ
  diskRead : ℚ
  diskWrite : ℚ
  hasDisk : Bool

/-- The `(key, point)` appends performed by one sampler iteration, in source
order (metrics_collector.py lines 134-142). -/
def iterEntries (it : IterData) : List (String × (ℚ × ℚ)) :=
  [("cpu_percent", (it.ts, it.cpu)),
   ("memory_percent", (it.ts, it.memPercent)),
   ("memory_used_gb", (it.ts, it.memUsedGB)),
   ("network_bytes_sent", (it.ts, it.netSent)),
   ("network_bytes_recv", (it.ts, it.netRecv))] ++
  (if it.hasDisk then
    [("disk_read_bytes", (it.ts, it.diskRead)),
     ("disk_write_bytes", (it.ts, it.diskWrite))]
   else [])

/-- One locked block of the sampler loop (metrics_collector.py lines 133-147):
append this iteration's points, then `popleft` any series longer than 1000.
The source trims every key present in the dict; trimming is applied here
pointwise to all keys, which agrees with the source because a key never
appended holds the empty series and is left unchanged by the trim. -/
def monitorIteration (it : IterData) (s : MetricsState) : MetricsState :=
  let m1 := (iterEntries it).foldl
    (fun m kv => updMap m kv.1 (m kv.1 ++ [kv.2])) s.systemMetrics
  let m2 := fun k => if 1000 < (m1 k).length then (m1 k).tail else m1 k
  { s with systemMetrics := m2 }

/-- All points appended for one metric key across a run of sampler
iterations, in order, before any trimming. -/
def keyValues (key : String) (its : List IterData) : List (ℚ × ℚ) :=
  its.flatMap (fun it =>
    ((iterEntries it).filter (fun kv => kv.1 = key)).map (·.2))

/-!
Load driver (`FoundationModelLoadTest.concurrent_test`,
foundation_model_test.py lines 276-330).  Only the submission logic is
modelled, at the granularity of one poll-loop pass: the initial
`concurrent_users` submissions index the prompt pool by `len(futures)`, and
each replacement submission indexes it by `len(results)` — the count of
collected results, which is fixed for every replacement made in one pass.
-/

/-- Driver bookkeeping visible to prompt selection: the number of in-flight
futures, the number of collected results, and the pool indices used by every
submission so far, in launch order. -/
structure DriverState where
  inFlight : Nat
  results : Nat
  launches : List Nat
deriving DecidableEq, Repr

/-- The initial submission loop (foundation_model_test.py lines 288-291):
`concurrent_users` submissions, the k-th using prompt `k % pool`. -/
def initialLaunch (pool conc : Nat) : DriverState :=
  { inFlight := conc
    results := 0
    launches := (List.range conc).map (· % pool) }

/-- One pass of the poll loop within the duration bound (foundation_model_test.py
lines 296-314) in which `k` in-flight futures are observed complete: all `k`
results are collected first, then `k` replacements are submitted, each using
prompt `len(results) % pool` with `len(results)` already at its post-collection
value. -/
def pollRound (pool : Nat) (st : DriverState) (k : Nat) : DriverState :=
  let done := min k st.inFlight
  let results2 := st.results + done
  { inFlight := st.inFlight
    results := results2
    launches := st.launches ++ List.replicate done (results2 % pool) }

/-- A driver run: the initial submissions followed by one `pollRound` per
poll-loop pass, with the completion count of each pass given by `rounds`. -/
def concurrentTestLaunches (pool conc : Nat) (rounds : List Nat) : DriverState :=
  rounds.foldl (pollRound pool) (initialLaunch pool conc)

/-- Closed form of the replacement indices: each pass contributes its
completion count of copies of (cumulative collected results) mod pool. -/
def replacementIndices (pool inFlight : Nat) : Nat → List Nat → List Nat
  | _, [] => []
  | results, k :: ks =>
    let done := min k inFlight
    List.replicate done ((results + done) % pool) ++
      replacementIndices pool inFlight (results + done) ks

/-!
Single-attempt worker (`FoundationModelLoadTest.single_request_test`,
foundation_model_test.py lines 180-232).  The remote invocation together with
response-text extraction is abstracted as a value of
`Except String InvokeOk`: `.error e` models any exception raised inside the
`try` block, carrying `str(e)`.
-/

/-- Successful invocation outcome: measured latency and extracted text. -/
structure InvokeOk where
  latency : ℚ
  responseText : String

/-- `FoundationModelLoadTest._count_tokens` (foundation_model_test.py
lines 118-121): `len(text) // 4`. -/
def countTokens (text : String) : Nat := text.length / 4

/-- `FoundationModelLoadTest._calculate_cost` (foundation_model_test.py
lines 123-128). -/
def calculateCost (priceIn priceOut : ℚ) (inputTokens outputTokens : Nat) : ℚ :=
  ((inputTokens : ℚ) / 1000) * priceIn + ((outputTokens : ℚ) / 1000) * priceOut

/-- Return value of `single_request_test`. -/
inductive SRTOutcome where
  | success (latency : ℚ) (inputTokens outputTokens : Nat) (cost : ℚ)
      (responseLength : Nat) : SRTOutcome
  | failure (error : String) : SRTOutcome
deriving DecidableEq, Repr

/-- `FoundationModelLoadTest.single_request_test` (foundation_model_test.py
lines 180-232).  On success, tokens and cost are computed and a successful
record is appended; any exception is caught at the attempt boundary and turned
into a failed record with latency 0 and the error text, and a failure result
is returned in place of propagation. -/
def singleRequestTest (category promptText : String) (priceIn priceOut : ℚ)
    (invokeResult : Except String InvokeOk) (ts : ℚ) (s : MetricsState) :
    SRTOutcome × MetricsState :=
  match invokeResult with
  | .ok res =>
    let inputTokens := countTokens promptText
    let outputTokens := countTokens res.responseText
    let cost := calculateCost priceIn priceOut inputTokens outputTokens
    let s2 := recordRequest
      ⟨ts, category, res.latency, true, inputTokens, outputTokens, cost, none⟩ s
    (.success res.latency inputTokens outputTokens cost res.responseText.length, s2)
  | .error e =>
    let s2 := recordRequest ⟨ts, category, 0, false, 0, 0, 0, some e⟩ s
    (.failure e, s2)

/-!
Lock-level concurrency model of `record_request`.  The locked block
(metrics_collector.py lines 79-111) is broken into its individual reads and
writes of shared state; in particular each `+=` on `cost_metrics` becomes a
separate read step and write step, so that the mutual exclusion provided by
`self.lock` — not step granularity — is what rules out lost updates.

Program counters of one worker thread performing one `record_request` call:
  0  acquire `self.lock`
  1  append `request_data` to `request_metrics`
  2  append latency to `metrics[type_latency]`
  3  append success flag to `metrics[type_success]`
  4  append input tokens to `metrics[type_tokens_input]`
  5  append output tokens to `metrics[type_tokens_output]`
  6  read `cost_metrics[request_type]` into a thread-local register
  7  write register + cost to `cost_metrics[request_type]`
  8  read `cost_metrics["total"]` into the register
  9  write register + cost to `cost_metrics["total"]`
  10 conditionally append the error record
  11 release `self.lock`
  12 done
-/

/-- Effect of body step `pc` (1-10 above) of one `record_request` call on the
shared store paired with the thread-local register. -/
def bodyEffect (a : RequestRecord) (pc : Nat) :
    MetricsState × ℚ → MetricsState × ℚ := fun sr =>
  let s := sr.1
  let r := sr.2
  match pc with
  | 1 => ({ s with requestMetrics := s.requestMetrics ++ [a] }, r)
  | 2 =>
    let k := a.requestType ++ "_latency"
    let m := updMap s.metrics k (s.metrics k ++ [a.latency])
    ({ s with metrics := m }, r)
  | 3 =>
    let k := a.requestType ++ "_success"
    let m := updMap s.metrics k (s.metrics k ++ [if a.success then 1 else 0])
    ({ s with metrics := m }, r)
  | 4 =>
    let k := a.requestType ++ "_tokens_input"
    let m := updMap s.metrics k (s.metrics k ++ [(a.tokensInput : ℚ)])
    ({ s with metrics := m }, r)
  | 5 =>
    let k := a.requestType ++ "_tokens_output"
    let m := updMap s.metrics k (s.metrics k ++ [(a.tokensOutput : ℚ)])
    ({ s with metrics := m }, r)
  | 6 => (s, s.costMetrics a.requestType)
  | 7 =>
    let cm := updMap s.costMetrics a.requestType (r + a.cost)
    ({ s with costMetrics := cm }, r)
  | 8 => (s, s.costMetrics "total")
  | 9 =>
    let cm := updMap s.costMetrics "total" (r + a.cost)
    ({ s with costMetrics := cm }, r)
  | 10 =>
    if !a.success && truthyStr a.error then
      let es := s.errorMetrics ++ [⟨a.timestamp, a.requestType, a.error.getD ""⟩]
      ({ s with errorMetrics := es }, r)
    else (s, r)
  | _ => (s, r)

/-- Store and register after body steps 1..k of one call, from register 0. -/
def stepsUpTo (a : RequestRecord) (k : Nat) (s : MetricsState) : MetricsState × ℚ :=
  (List.range' 1 k).foldl (fun p pc => bodyEffect a pc p) (s, 0)

/-- A configuration of n worker threads sharing one collector: the shared
store, the lock holder, each thread's program counter, and each thread's
local register. -/
structure Config where
  store : MetricsState
  lock : Option Nat
  pcs : List Nat
  regs : List ℚ

/-- Placeholder record for out-of-range list reads in the step function. -/
def dfltRecord : RequestRecord :=
  { timestamp := 0, requestType := "", latency := 0, success := false
    tokensInput := 0, tokensOutput := 0, cost := 0, error := none }

/-- Initial configuration: every thread is about to acquire the lock. -/
def initConfig (args : List RequestRecord) (s0 : MetricsState) : Config :=
  { store := s0
    lock := none
    pcs := List.replicate args.length 0
    regs := List.replicate args.length 0 }

/-- One scheduler-chosen step of thread `i`, where thread `i` performs one
`record_request args[i]` call.  `none` means thread `i` cannot step here:
it is blocked on the lock, already done, or nonexistent. -/
def stepThread (args : List RequestRecord) (i : Nat) (c : Config) : Option Config :=
  match c.pcs[i]? with
  | none => none
  | some pc =>
    if pc = 0 then
      match c.lock with
      | none => some { c with lock := some i, pcs := c.pcs.set i 1 }
      | some _ => none
    else if pc = 11 then
      if c.lock = some i then
        some { c with lock := none, pcs := c.pcs.set i 12 }
      else none
    else if 1 ≤ pc ∧ pc ≤ 10 then
      if c.lock = some i then
        let a := args.getD i dfltRecord
        let sr := bodyEffect a pc (c.store, c.regs.getD i 0)
        some { store := sr.1, lock := c.lock, pcs := c.pcs.set i (pc + 1),
               regs := c.regs.set i sr.2 }
      else none
    else none

/-- Run a scheduler trace: a list of thread indices, each asked to take one
step; the run fails if any named thread cannot step. -/
def execTrace (args : List RequestRecord) (trace : List Nat) (c : Config) :
    Option Config :=
  trace.foldl (fun oc i => oc.bind (stepThread args i)) (some c)

/-- The error record produced by one `record_request` call, when the call
fails with a truthy error (metrics_collector.py lines 106-111). -/
def errOf (r : RequestRecord) : Option ErrorRecord :=
  if !r.success && truthyStr r.error then
    some ⟨r.timestamp, r.requestType, r.error.getD ""⟩
  else none

/-- The concrete record sequence of the error-summary example: three failures
with message "timeout" and one with message "rate_limited". -/
def c9calls : List RequestRecord :=
  [⟨1, "foundation_model_claude", 0, false, 0, 0, 0, some "timeout"⟩,
   ⟨2, "foundation_model_claude", 0, false, 0, 0, 0, some "timeout"⟩,
   ⟨3, "knowledge_base", 0, false, 0, 0, 0, some "timeout"⟩,
   ⟨4, "foundation_model_claude", 0, false, 0, 0, 0, some "rate_limited"⟩]

/-- Invariant of the concurrency model: the shared store always equals some
serialization of the completed `record_request` calls, extended by the prefix
of body steps already taken by the current lock holder; every thread not
holding the lock is either before its acquire or done. -/
def RecInv (args : List RequestRecord) (s0 : MetricsState) (c : Config) : Prop :=
  c.pcs.length = args.length ∧
  c.regs.length = args.length ∧
  ∃ done : List Nat,
    done.Nodup ∧
    (∀ j, j ∈ done ↔ (j < args.length ∧ c.pcs.getD j 13 = 12)) ∧
    (match c.lock with
     | none =>
       (∀ j, j < args.length → c.pcs.getD j 13 = 0 ∨ c.pcs.getD j 13 = 12) ∧
       c.store = applyCalls (done.map (fun j => args.getD j dfltRecord)) s0
     | some i =>
       i < args.length ∧ i ∉ done ∧
       1 ≤ c.pcs.getD i 13 ∧ c.pcs.getD i 13 ≤ 11 ∧
       (∀ j, j < args.length → j ≠ i →
         c.pcs.getD j 13 = 0 ∨ c.pcs.getD j 13 = 12) ∧
       c.store = (stepsUpTo (args.getD i dfltRecord) (c.pcs.getD i 13 - 1)
         (applyCalls (done.map (fun j => args.getD j dfltRecord)) s0)).1 ∧
       ((c.pcs.getD i 13 = 7 ∨ c.pcs.getD i 13 = 9) →
         c.regs.getD i 0 = (stepsUpTo (args.getD i dfltRecord)
           (c.pcs.getD i 13 - 1)
           (applyCalls (done.map (fun j => args.getD j dfltRecord)) s0)).2))

/-- Decidable equality of summary results, used to evaluate concrete
summary comparisons. -/
instance : DecidableEq (Except String PerfSummary) := fun a b =>
  match a, b with
  | .error x, .error y =>
    if h : x = y then .isTrue (by rw [h])
    else .isFalse (by intro hc; cases hc; exact h rfl)
  | .ok x, .ok y =>
    if h : x = y then .isTrue (by rw [h])
    else .isFalse (by intro hc; cases hc; exact h rfl)
  | .error _, .ok _ => .isFalse (by intro hc; cases hc)
  | .ok _, .error _ => .isFalse (by intro hc; cases hc)

/-!
Shared lemmas about sequences of `record_request` calls.
-/

theorem recordRequest_requestMetrics (a : RequestRecord) (s : MetricsState) :
    (recordRequest a s).requestMetrics = s.requestMetrics ++ [a] := by
  simp only [recordRequest]
  split <;> rfl

theorem recordRequest_startTime (a : RequestRecord) (s : MetricsState) :
    (recordRequest a s).startTime = s.startTime := by
  simp only [recordRequest]
  split <;> rfl

theorem recordRequest_endTime (a : RequestRecord) (s : MetricsState) :
    (recordRequest a s).endTime = s.endTime := by
  simp only [recordRequest]
  split <;> rfl

theorem recordRequest_errorMetrics (a : RequestRecord) (s : MetricsState) :
    (recordRequest a s).errorMetrics = s.errorMetrics ++ (errOf a).toList := by
  simp only [recordRequest, errOf]
  split <;> simp

theorem applyCalls_requestMetrics (calls : List RequestRecord) (s : MetricsState) :
    (applyCalls calls s).requestMetrics = s.requestMetrics ++ calls := by
  induction calls generalizing s with
  | nil => simp [applyCalls]
  | cons c cs ih =>
    simp [applyCalls] at ih ⊢
    rw [ih, recordRequest_requestMetrics]
    simp

theorem applyCalls_startTime (calls : List RequestRecord) (s : MetricsState) :
    (applyCalls calls s).startTime = s.startTime := by
  induction calls generalizing s with
  | nil => rfl
  | cons c cs ih => simp [applyCalls] at ih ⊢; rw [ih, recordRequest_startTime]

theorem applyCalls_endTime (calls : List RequestRecord) (s : MetricsState) :
    (applyCalls calls s).endTime = s.endTime := by
  induction calls generalizing s with
  | nil => rfl
  | cons c cs ih => simp [applyCalls] at ih ⊢; rw [ih, recordRequest_endTime]

theorem applyCalls_errorMetrics (calls : List RequestRecord) (s : MetricsState) :
    (applyCalls calls s).errorMetrics = s.errorMetrics ++ calls.filterMap errOf := by
  induction calls generalizing s with
  | nil => simp [applyCalls]
  | cons c cs ih =>
    simp only [applyCalls, List.foldl_cons, List.filterMap_cons] at ih ⊢
    rw [ih, recordRequest_errorMetrics]
    cases h : errOf c <;> simp [h]

/-- C1: for every sequence of N `record()` calls of which S have
`success = true`, made after monitoring was started, `get_performance_summary()`
returns an overall block with `total_requests = N`, `successful_requests = S`,
`failed_requests = N - S`, and `success_rate = S/N` (0 when `N = 0`); no
recorded attempt is dropped from these counts. -/
theorem overall_counts_match_recorded_calls (t0 now : ℚ) (calls : List RequestRecord) :
    ∃ summ : PerfSummary,
      getPerformanceSummary now (applyCalls calls (startMonitoring t0 initialState)) =
        .ok summ ∧
      summ.overall.totalRequests = calls.length ∧
      summ.overall.successfulRequests = (calls.filter (·.success)).length ∧
      summ.overall.failedRequests =
        calls.length - (calls.filter (·.success)).length ∧
      summ.overall.successRate =
        (if 0 < calls.length then
          ((calls.filter (·.success)).length : ℚ) / calls.length
         else 0) := by
  have hreq : (applyCalls calls (startMonitoring t0 initialState)).requestMetrics =
      calls := by
    rw [applyCalls_requestMetrics]; rfl
  have hst : (applyCalls calls (startMonitoring t0 initialState)).startTime =
      some t0 := by
    rw [applyCalls_startTime]; rfl
  have hend : (applyCalls calls (startMonitoring t0 initialState)).endTime =
      none := by
    rw [applyCalls_endTime]; rfl
  have hok : getPerformanceSummary now (applyCalls calls (startMonitoring t0 initialState)) =
      .ok { overall :=
              { totalRequests :=
                  (applyCalls calls (startMonitoring t0 initialState)).requestMetrics.length
                successfulRequests := succCount (applyCalls calls (startMonitoring t0 initialState))
                failedRequests :=
                  (applyCalls calls (startMonitoring t0 initialState)).requestMetrics.length -
                    succCount (applyCalls calls (startMonitoring t0 initialState))
                successRate := succRate (applyCalls calls (startMonitoring t0 initialState))
                testDuration := now - t0
                requestsPerSecond := 0 }
            perType := perTypeStats (applyCalls calls (startMonitoring t0 initialState)) } := by
    simp [getPerformanceSummary, durationResult, rpsResult, hst, hend, truthyQ]
  refine ⟨_, hok, ?_, ?_, ?_, ?_⟩
  all_goals simp [succCount, succRate, hreq]

theorem errorCounts_foldl (l : List ErrorRecord) (g : String → Nat) (msg : String) :
    (l.foldl (fun f e => updMap f e.error (f e.error + 1)) g) msg =
      g msg + l.countP (fun e => e.error = msg) := by
  induction l generalizing g with
  | nil => simp
  | cons e es ih =>
    simp only [List.foldl_cons, List.countP_cons, ih, updMap]
    by_cases h : e.error = msg
    · simp [h]; omega
    · have h2 : ¬ (msg = e.error) := fun hh => h hh.symm
      simp [h, h2]

theorem errorsByType_foldl (l : List ErrorRecord) (g : String → List String)
    (cat : String) :
    (l.foldl (fun f e => updMap f e.requestType (f e.requestType ++ [e.error])) g) cat =
      g cat ++ (l.filter (fun e => e.requestType = cat)).map (·.error) := by
  induction l generalizing g with
  | nil => simp
  | cons e es ih =>
    simp only [List.foldl_cons, List.filter_cons, ih, updMap]
    by_cases h : e.requestType = cat
    · simp [h]
    · have h2 : ¬ (cat = e.requestType) := fun hh => h hh.symm
      simp [h, h2]

theorem filterMap_errOf_length (calls : List RequestRecord) :
    (calls.filterMap errOf).length =
      calls.countP (fun c => !c.success && truthyStr c.error) := by
  induction calls with
  | nil => simp
  | cons c cs ih =>
    simp only [List.filterMap_cons, List.countP_cons, errOf]
    by_cases h : (!c.success && truthyStr c.error) = true
    · simp [h, ih]
    · simp [h, ih]

/-- C9: an error record is appended exactly when `success` is false and the
error message is truthy; `get_error_summary()` reports the number of such
calls as `total_errors`, the per-message occurrence counts as `error_counts`,
and the per-category message lists as `errors_by_type`; in particular three
"timeout" failures and one "rate_limited" failure yield counts 3 and 1 and
`total_errors = 4`. -/
theorem error_summary_contents :
    (∀ calls : List RequestRecord,
        (applyCalls calls initialState).errorMetrics = calls.filterMap errOf) ∧
    (∀ calls : List RequestRecord,
        (getErrorSummary (applyCalls calls initialState)).totalErrors =
          calls.countP (fun c => !c.success && truthyStr c.error)) ∧
    (∀ (s : MetricsState) (msg : String),
        (getErrorSummary s).errorCounts msg =
          s.errorMetrics.countP (fun e => e.error = msg)) ∧
    (∀ (s : MetricsState) (cat : String),
        (getErrorSummary s).errorsByType cat =
          (s.errorMetrics.filter (fun e => e.requestType = cat)).map (·.error)) ∧
    ((getErrorSummary (applyCalls c9calls initialState)).errorCounts "timeout" = 3 ∧
     (getErrorSummary (applyCalls c9calls initialState)).errorCounts "rate_limited" = 1 ∧
     (getErrorSummary (applyCalls c9calls initialState)).totalErrors = 4) := by
  refine ⟨?_, ?_, ?_, ?_, ?_, ?_, ?_⟩
  · intro calls
    rw [applyCalls_errorMetrics]; rfl
  · intro calls
    show (applyCalls calls initialState).errorMetrics.length = _
    rw [applyCalls_errorMetrics]
    simp [initialState, filterMap_errOf_length]
  · intro s msg
    exact (errorCounts_foldl s.errorMetrics (fun _ => 0) msg).trans (by simp)
  · intro s cat
    exact (errorsByType_foldl s.errorMetrics (fun _ => []) cat).trans (by simp)
  · decide
  · decide
  · decide

/-- C10: any exception raised inside a single request attempt is caught at
the attempt boundary of `single_request_test`: exactly one failed outcome
record is appended, with latency 0 and the error description preserved, and
a failure result is returned in place of propagation. -/
theorem attempt_exception_is_recorded_not_propagated
    (category promptText : String) (priceIn priceOut : ℚ) (e : String)
    (ts : ℚ) (s : MetricsState) :
    (singleRequestTest category promptText priceIn priceOut (.error e) ts s).1 =
      .failure e ∧
    (singleRequestTest category promptText priceIn priceOut (.error e) ts s).2.requestMetrics =
      s.requestMetrics ++ [⟨ts, category, 0, false, 0, 0, 0, some e⟩] ∧
    (singleRequestTest category promptText priceIn priceOut (.error e) ts s).2.requestMetrics.length =
      s.requestMetrics.length + 1 := by
  refine ⟨rfl, ?_, ?_⟩
  · rw [show (singleRequestTest category promptText priceIn priceOut (.error e) ts s).2 =
        recordRequest ⟨ts, category, 0, false, 0, 0, 0, some e⟩ s from rfl]
    rw [recordRequest_requestMetrics]
  · rw [show (singleRequestTest category promptText priceIn priceOut (.error e) ts s).2 =
        recordRequest ⟨ts, category, 0, false, 0, 0, 0, some e⟩ s from rfl]
    rw [recordRequest_requestMetrics]
    simp

theorem ceil_eq_floor_succ_of_not_int {x : ℚ} (h : ¬ ((⌊x⌋ : ℚ) = x)) :
    ⌈x⌉ = ⌊x⌋ + 1 := by
  have hlt : (⌊x⌋ : ℚ) < x := lt_of_le_of_ne (Int.floor_le x) h
  refine le_antisymm ?_ ?_
  · exact Int.ceil_le.mpr (le_of_lt (by exact_mod_cast Int.lt_floor_add_one x))
  · have : ⌊x⌋ < ⌈x⌉ := Int.lt_ceil.mpr hlt
    omega

/-- C2: `_percentile` is exactly the linear-interpolation percentile of the
specification for every list and every percentile in [0, 100], and on the
spec's concrete examples it yields 25 at p50, 40 at p100 and 10 at p0 on
[10, 20, 30, 40], and 0 on the empty list. -/
theorem percentile_is_linear_interpolation :
    (∀ (data : List ℚ) (p : ℚ), 0 ≤ p → p ≤ 100 →
        percentileFn data p = percentileSpec data p) ∧
    percentileFn [10, 20, 30, 40] 50 = 25 ∧
    percentileFn [10, 20, 30, 40] 100 = 40 ∧
    percentileFn [10, 20, 30, 40] 0 = 10 ∧
    (∀ p : ℚ, percentileFn [] p = 0) := by
  refine ⟨?_, by decide, by decide, by decide, by intro p; simp [percentileFn]⟩
  intro data p hp _hp100
  by_cases hd : data = []
  · simp [percentileFn, percentileSpec, hd]
  · simp only [percentileFn, percentileSpec, if_neg hd]
    set sortedData := List.insertionSort (· ≤ ·) data with hs
    set x : ℚ := (p / 100) * ((sortedData.length : ℚ) - 1) with hx
    have hx0 : 0 ≤ x := by
      have hlen : 1 ≤ sortedData.length := by
        rw [hs, List.length_insertionSort]
        exact List.length_pos.mpr hd
      have : (1 : ℚ) ≤ (sortedData.length : ℚ) := by exact_mod_cast hlen
      have h1 : 0 ≤ (sortedData.length : ℚ) - 1 := by linarith
      exact mul_nonneg (div_nonneg hp (by norm_num)) h1
    by_cases hden : x.den = 1
    · have hnum : (x.num : ℚ) = x := (Rat.den_eq_one_iff x).mp hden
      have hfl : ⌊x⌋ = x.num := by
        conv_lhs => rw [← hnum]
        exact Int.floor_intCast x.num
      have hint : (⌊x⌋ : ℚ) = x := by rw [hfl]; exact hnum
      rw [if_pos hden, if_pos hint, hfl]
    · have hnoint : ¬ ((⌊x⌋ : ℚ) = x) := by
        intro hcontra
        apply hden
        have : x = ((⌊x⌋ : ℤ) : ℚ) := hcontra.symm
        rw [this]
        exact Rat.den_intCast _
      rw [if_neg hden, if_neg hnoint]
      have hceil : ⌈x⌉ = ⌊x⌋ + 1 := ceil_eq_floor_succ_of_not_int hnoint
      have hfl0 : 0 ≤ ⌊x⌋ := Int.floor_nonneg.mpr hx0
      have htn : (⌈x⌉).toNat = (⌊x⌋).toNat + 1 := by rw [hceil]; omega
      rw [htn]

/-- Witness for the percentile equivalence at a concrete in-range input. -/
theorem percentile_is_linear_interpolation_witness :
    percentileFn [1, 2] 95 = percentileSpec [1, 2] 95 :=
  percentile_is_linear_interpolation.1 [1, 2] 95 (by norm_num) (by norm_num)

/-- C3 counterexample: on a store whose monitoring was never started,
`get_performance_summary()` raises (`time.time() - None` is a `TypeError`),
contradicting the claim that it never raises for every store state. -/
theorem summary_raises_on_unstarted_store :
    getPerformanceSummary 5 initialState = .error "TypeError" := rfl

/-- Characterization of a successful `get_performance_summary` run: when the
duration and requests-per-second expressions both evaluate without raising,
the summary is the overall block plus the per-type blocks. -/
theorem getPerf_ok (now : ℚ) (s : MetricsState) (dur rps : ℚ)
    (hdur : durationResult now s = .ok dur) (hrps : rpsResult s = .ok rps) :
    getPerformanceSummary now s =
      .ok { overall :=
              { totalRequests := s.requestMetrics.length
                successfulRequests := succCount s
                failedRequests := s.requestMetrics.length - succCount s
                successRate := succRate s
                testDuration := dur
                requestsPerSecond := rps }
            perType := perTypeStats s } := by
  simp [getPerformanceSummary, hdur, hrps]

/-- C3 amended: for every store whose monitoring has been started, and which
was not stopped with a recorded span of exactly zero while both timestamps
are truthy, `get_performance_summary()` never raises; the success rate
special-cases the empty denominator to 0, and requests-per-second is
`total / (end - start)` when both timestamps are truthy and 0 otherwise. -/
theorem summary_safe_when_started (now st : ℚ) (s : MetricsState)
    (hstart : s.startTime = some st)
    (hnz : truthyQ s.endTime = true → truthyQ s.startTime = true →
      s.endTime.getD 0 ≠ st) :
    ∃ summ : PerfSummary,
      getPerformanceSummary now s = .ok summ ∧
      summ.overall.successRate =
        (if 0 < s.requestMetrics.length then
          ((succCount s : ℚ)) / s.requestMetrics.length else 0) ∧
      (s.requestMetrics.length = 0 → summ.overall.successRate = 0) ∧
      summ.overall.requestsPerSecond =
        (if truthyQ s.endTime && truthyQ s.startTime then
          (s.requestMetrics.length : ℚ) / (s.endTime.getD 0 - st) else 0) ∧
      summ.overall.testDuration =
        (if truthyQ s.endTime then s.endTime.getD 0 - st else now - st) := by
  by_cases hend : truthyQ s.endTime = true
  · by_cases hstt : truthyQ s.startTime = true
    · have hd : ¬ (s.endTime.getD 0 - s.startTime.getD 0 = 0) := by
        rw [hstart]
        simpa using sub_ne_zero.mpr (hnz hend hstt)
      have hdur : durationResult now s = .ok (s.endTime.getD 0 - st) := by
        simp [durationResult, hend, hstart]
      have hstt3 : truthyQ (some st) = true := hstart ▸ hstt
      have hd3 : ¬ (s.endTime.getD 0 - st = 0) :=
        sub_ne_zero.mpr (hnz hend hstt)
      have hrps : rpsResult s =
          .ok ((s.requestMetrics.length : ℚ) / (s.endTime.getD 0 - st)) := by
        simp [rpsResult, hend, hstart, hstt3, hd3]
      refine ⟨_, getPerf_ok now s _ _ hdur hrps, ?_, ?_, ?_, ?_⟩
      · simp [succRate, succCount]
      · intro h0; simp [succRate, h0]
      · simp [hend, hstt]
      · simp [hend]
    · have hstt2 : truthyQ s.startTime = false := by
        revert hstt; cases truthyQ s.startTime <;> simp
      have hdur : durationResult now s = .ok (s.endTime.getD 0 - st) := by
        simp [durationResult, hend, hstart]
      have hrps : rpsResult s = .ok 0 := by
        simp [rpsResult, hstt2]
      refine ⟨_, getPerf_ok now s _ _ hdur hrps, ?_, ?_, ?_, ?_⟩
      · simp [succRate, succCount]
      · intro h0; simp [succRate, h0]
      · simp [hstt2]
      · simp [hend]
  · have hend2 : truthyQ s.endTime = false := by
      revert hend; cases truthyQ s.endTime <;> simp
    have hdur : durationResult now s = .ok (now - st) := by
      simp [durationResult, hend2, hstart]
    have hrps : rpsResult s = .ok 0 := by
      simp [rpsResult, hend2]
    refine ⟨_, getPerf_ok now s _ _ hdur hrps, ?_, ?_, ?_, ?_⟩
    · simp [succRate, succCount]
    · intro h0; simp [succRate, h0]
    · simp [hend2]
    · simp [hend2]

/-- Witness: a freshly started store satisfies the amended safety statement. -/
theorem summary_safe_when_started_witness :
    ∃ summ : PerfSummary,
      getPerformanceSummary 5 (startMonitoring 1 initialState) = .ok summ := by
  obtain ⟨summ, h, -, -, -, -⟩ :=
    summary_safe_when_started 5 1 (startMonitoring 1 initialState) rfl (by decide)
  exact ⟨summ, h⟩

/-- C8 counterexample: on a store whose monitoring is still running (end time
unset), two `get_performance_summary()` calls with no intervening `record()`
call return different results, because `test_duration` reads the current
clock; the claim fails for such store states. -/
theorem summary_not_idempotent_while_running :
    getPerformanceSummary 2 (startMonitoring 1 initialState) ≠
      getPerformanceSummary 3 (startMonitoring 1 initialState) := by decide

/-- C8 amended: `get_cost_summary` reads no clock, so repeated calls agree by
construction; `get_performance_summary` returns identical results across
repeated calls with no intervening `record()` whenever monitoring has been
stopped (truthy end time); only the still-running case varies, and only in
`test_duration`. -/
theorem summary_idempotent_when_stopped (s : MetricsState) (now1 now2 : ℚ)
    (hend : truthyQ s.endTime = true) :
    getPerformanceSummary now1 s = getPerformanceSummary now2 s := by
  simp [getPerformanceSummary, durationResult, hend]

/-- Witness: a started-then-stopped store gives clock-independent summaries. -/
theorem summary_idempotent_when_stopped_witness :
    getPerformanceSummary 5 (stopMonitoring 2 (startMonitoring 1 initialState)) =
      getPerformanceSummary 7 (stopMonitoring 2 (startMonitoring 1 initialState)) :=
  summary_idempotent_when_stopped
    (stopMonitoring 2 (startMonitoring 1 initialState)) 5 7 (by decide)

/-- C6 counterexample: with a pool of 5 prompts and 2 concurrent users, a
poll pass in which both in-flight attempts complete launches two replacements
that both use pool index 2; the 4th launched attempt (k = 3) therefore does
not use input 3 mod 5, refuting the claimed k mod pool-size rotation. -/
theorem round_robin_claim_fails :
    (concurrentTestLaunches 5 2 [2]).launches = [0, 1, 2, 2] ∧
    (concurrentTestLaunches 5 2 [2]).launches.getD 3 99 ≠ 3 % 5 := by decide

theorem foldl_pollRound (pool : Nat) (rounds : List Nat) (st : DriverState) :
    (rounds.foldl (pollRound pool) st).launches =
      st.launches ++ replacementIndices pool st.inFlight st.results rounds := by
  induction rounds generalizing st with
  | nil => simp [replacementIndices]
  | cons r rs ih =>
    simp only [List.foldl_cons, replacementIndices]
    rw [ih]
    simp [pollRound, List.append_assoc]

/-- C6 amended: the initial `concurrent_users` attempts use pool indices
`0, 1, ..., concurrency-1` mod pool-size in launch order, but each
replacement attempt uses `len(results) mod pool-size` where `len(results)`
is the cumulative number of results collected up to and including its poll
pass, so every replacement launched in the same pass shares one index; the
launch sequence is deterministic in the per-pass completion counts but is
not the claimed `k mod pool-size` rotation. -/
theorem driver_launch_indices (pool conc : Nat) (rounds : List Nat) :
    (concurrentTestLaunches pool conc rounds).launches =
      (List.range conc).map (· % pool) ++
        replacementIndices pool conc 0 rounds ∧
    (∀ k, k < conc →
      (concurrentTestLaunches pool conc rounds).launches.getD k 0 = k % pool) := by
  have h := foldl_pollRound pool rounds (initialLaunch pool conc)
  constructor
  · exact h
  · intro k hk
    have h2 : (concurrentTestLaunches pool conc rounds).launches =
        (List.range conc).map (· % pool) ++
          replacementIndices pool conc 0 rounds := h
    have hlen : k < ((List.range conc).map (· % pool)).length := by
      simpa using hk
    have hlt : k < ((List.range conc).map (· % pool) ++
        replacementIndices pool conc 0 rounds).length := by
      simp only [List.length_append, List.length_map, List.length_range]
      omega
    rw [h2, List.getD_eq_getElem _ _ hlt, List.getElem_append_left hlen]
    simp

theorem getPerf_ok_inv (now : ℚ) (s : MetricsState) (summ : PerfSummary)
    (hok : getPerformanceSummary now s = .ok summ) :
    summ.perType = perTypeStats s ∧
    summ.overall.totalRequests = s.requestMetrics.length := by
  unfold getPerformanceSummary at hok
  cases hd : durationResult now s with
  | error e => rw [hd] at hok; cases hok
  | ok dur =>
    rw [hd] at hok
    cases hr : rpsResult s with
    | error e => rw [hr] at hok; cases hok
    | ok rps =>
      rw [hr] at hok
      cases hok
      exact ⟨rfl, rfl⟩

/-- C7: the per-category blocks of `get_performance_summary()` are computed
only over the latencies of that category's successful attempts; a category
with no successful attempt is omitted from the per-category detail, while its
attempts still count in the overall total. -/
theorem per_type_stats_over_successes (now : ℚ) (s : MetricsState)
    (summ : PerfSummary) (hok : getPerformanceSummary now s = .ok summ) :
    (∀ t : String, (∃ st, (t, st) ∈ summ.perType) ↔ succLats s t ≠ []) ∧
    (∀ (t : String) (st : TypeStats), (t, st) ∈ summ.perType →
      st.totalRequests =
        (s.requestMetrics.filter (fun r => r.requestType = t)).length ∧
      st.successfulRequests = (succLats s t).length ∧
      st.successRate = ((succLats s t).length : ℚ) /
        (s.requestMetrics.filter (fun r => r.requestType = t)).length ∧
      st.avgLatency = meanQ (succLats s t) ∧
      st.medianLatency = medianQ (succLats s t) ∧
      st.p95Latency = percentileFn (succLats s t) 95 ∧
      st.p99Latency = percentileFn (succLats s t) 99 ∧
      st.minLatency = listMinQ (succLats s t) ∧
      st.maxLatency = listMaxQ (succLats s t)) ∧
    summ.overall.totalRequests = s.requestMetrics.length := by
  obtain ⟨hpt, hov⟩ := getPerf_ok_inv now s summ hok
  refine ⟨?_, ?_, hov⟩
  · intro t
    rw [hpt]
    constructor
    · rintro ⟨st, hmem⟩
      simp only [perTypeStats, List.mem_filterMap] at hmem
      obtain ⟨x, _hx, hfx⟩ := hmem
      by_cases he : (((s.requestMetrics.filter
          (fun r => r.requestType = x)).filter (·.success)).map (·.latency)).isEmpty
      · rw [if_pos he] at hfx; cases hfx
      · rw [if_neg he] at hfx
        injection hfx with hpair
        obtain ⟨hxt, -⟩ := Prod.mk.inj hpair
        subst hxt
        intro hnil
        apply he
        rw [List.isEmpty_iff]
        exact hnil
    · intro hne
      have hex : ∃ r ∈ s.requestMetrics, r.requestType = t ∧ r.success := by
        by_contra hno
        push_neg at hno
        apply hne
        simp only [succLats, List.map_eq_nil_iff, List.filter_eq_nil_iff]
        intro r hr
        simp only [List.mem_filter] at hr
        obtain ⟨hr1, hr2⟩ := hr
        have := hno r hr1
        intro hs
        exact absurd hs (this (by simpa using hr2))
      have hmem : t ∈ (s.requestMetrics.map (·.requestType)).dedup := by
        rw [List.mem_dedup, List.mem_map]
        obtain ⟨r, hr, hrt, -⟩ := hex
        exact ⟨r, hr, hrt⟩
      have hne2 : ¬ ((((s.requestMetrics.filter
          (fun r => r.requestType = t)).filter (·.success)).map
            (·.latency)).isEmpty = true) := by
        rw [List.isEmpty_iff]; exact hne
      exact ⟨_, List.mem_filterMap.mpr ⟨t, hmem, by
        dsimp only
        rw [if_neg hne2]⟩⟩
  · intro t st hmem
    rw [hpt] at hmem
    simp only [perTypeStats, List.mem_filterMap] at hmem
    obtain ⟨x, _hx, hfx⟩ := hmem
    by_cases he : (((s.requestMetrics.filter
        (fun r => r.requestType = x)).filter (·.success)).map (·.latency)).isEmpty
    · rw [if_pos he] at hfx; cases hfx
    · rw [if_neg he] at hfx
      injection hfx with hpair
      obtain ⟨hxt, hst⟩ := Prod.mk.inj hpair
      subst hxt
      subst hst
      refine ⟨rfl, rfl, rfl, rfl, rfl, rfl, rfl, rfl, rfl⟩

/-- Witness: on a store holding one successful "a" attempt and one failed
"b" attempt, the summary block exists, counts both attempts overall, lists
"a" and omits "b" in the per-type detail. -/
theorem per_type_stats_over_successes_witness :
    ∃ summ : PerfSummary,
      getPerformanceSummary 5
        (applyCalls
          [⟨1, "a", 2, true, 0, 0, 0, none⟩,
           ⟨2, "b", 0, false, 0, 0, 0, some "boom"⟩]
          (startMonitoring 1 initialState)) = .ok summ ∧
      summ.overall.totalRequests = 2 ∧
      (∃ st, ("a", st) ∈ summ.perType) ∧
      ¬ (∃ st, ("b", st) ∈ summ.perType) := by
  have hok := getPerf_ok 5
    (applyCalls
      [⟨1, "a", 2, true, 0, 0, 0, none⟩,
       ⟨2, "b", 0, false, 0, 0, 0, some "boom"⟩]
      (startMonitoring 1 initialState)) 4 0 rfl rfl
  obtain ⟨hiff, _hfields, hov⟩ := per_type_stats_over_successes 5 _ _ hok
  refine ⟨_, hok, hov.trans (by decide), ?_, ?_⟩
  · exact (hiff "a").mpr (by decide)
  · rw [hiff "b"]
    simp only [ne_eq, not_not]
    decide

theorem entries_foldl_append (entries : List (String × (ℚ × ℚ)))
    (m : String → List (ℚ × ℚ)) (k : String) :
    (entries.foldl (fun m kv => updMap m kv.1 (m kv.1 ++ [kv.2])) m) k =
      m k ++ (entries.filter (fun kv => kv.1 = k)).map (·.2) := by
  induction entries generalizing m with
  | nil => simp
  | cons e es ih =>
    simp only [List.foldl_cons, List.filter_cons, ih, updMap]
    by_cases h : e.1 = k
    · simp [h]
    · have h2 : ¬ (k = e.1) := fun hh => h hh.symm
      simp [h, h2]

theorem nodup_keys_filter_le_one (entries : List (String × (ℚ × ℚ)))
    (h : (entries.map (·.1)).Nodup) (k : String) :
    (entries.filter (fun kv => kv.1 = k)).length ≤ 1 := by
  induction entries with
  | nil => simp
  | cons e es ih =>
    simp only [List.map_cons, List.nodup_cons] at h
    obtain ⟨hnotin, hnd⟩ := h
    simp only [List.filter_cons]
    by_cases hk : e.1 = k
    · have hnilf : es.filter (fun kv => kv.1 = k) = [] := by
        rw [List.filter_eq_nil_iff]
        intro kv hkv
        simp only [decide_eq_true_eq]
        intro hc
        apply hnotin
        have : kv.1 ∈ es.map (·.1) := List.mem_map_of_mem (·.1) hkv
        rw [hc, ← hk] at this
        exact this
      simp [hk, hnilf]
    · simp only [hk]
      simpa [hk] using ih hnd

theorem iterEntries_keys_nodup (it : IterData) :
    ((iterEntries it).map (·.1)).Nodup := by
  cases h : it.hasDisk <;> simp [iterEntries, h]

theorem monitorIteration_systemMetrics (it : IterData) (s : MetricsState)
    (k : String) :
    (monitorIteration it s).systemMetrics k =
      (if 1000 <
          (s.systemMetrics k ++
            ((iterEntries it).filter (fun kv => kv.1 = k)).map (·.2)).length then
        (s.systemMetrics k ++
          ((iterEntries it).filter (fun kv => kv.1 = k)).map (·.2)).tail
       else
        s.systemMetrics k ++
          ((iterEntries it).filter (fun kv => kv.1 = k)).map (·.2)) := by
  show (if 1000 < ((iterEntries it).foldl
      (fun m kv => updMap m kv.1 (m kv.1 ++ [kv.2])) s.systemMetrics k).length then _
    else _) = _
  rw [entries_foldl_append]

theorem drop_succ_via_tail (l r : List (ℚ × ℚ)) (h : l ≠ []) (n : Nat) :
    (l ++ r).drop (n + 1) = (l.tail ++ r).drop n := by
  have hl1 : 1 ≤ l.length := by
    cases l with
    | nil => exact absurd rfl h
    | cons a t => simp only [List.length_cons]; omega
  have h1 : (l ++ r).drop 1 = l.tail ++ r := by
    rw [List.drop_append_of_le_length hl1, List.drop_one]
  rw [Nat.add_comm, ← List.drop_drop, h1]

theorem trim_fold {α : Type} (f : α → List (ℚ × ℚ)) (its : List α)
    (hv : ∀ it, (f it).length ≤ 1) (l : List (ℚ × ℚ)) (hl : l.length ≤ 1000) :
    its.foldl (fun acc it =>
        if 1000 < (acc ++ f it).length then (acc ++ f it).tail
        else acc ++ f it) l =
      (l ++ its.flatMap f).drop (l.length + (its.flatMap f).length - 1000) := by
  induction its generalizing l with
  | nil =>
    simp only [List.foldl_nil, List.flatMap_nil, List.append_nil,
      List.length_nil, Nat.add_zero]
    rw [Nat.sub_eq_zero_of_le hl, List.drop_zero]
  | cons it its ih =>
    simp only [List.foldl_cons, List.flatMap_cons]
    cases hv1 : f it with
    | nil =>
      simp only [List.append_nil, List.nil_append]
      rw [if_neg (by omega), ih l hl]
    | cons v rest =>
      have hrest : rest = [] := by
        have h1 := hv it
        rw [hv1] at h1
        simp only [List.length_cons] at h1
        exact List.length_eq_zero.mp (by omega)
      subst hrest
      by_cases hlt : l.length < 1000
      · have hc1 : ¬ (1000 < (l ++ [v]).length) := by
          simp only [List.length_append, List.length_cons, List.length_nil]
          omega
        have hc2 : (l ++ [v]).length ≤ 1000 := by
          simp only [List.length_append, List.length_cons, List.length_nil]
          omega
        have hidx : (l ++ [v]).length + (its.flatMap f).length - 1000 =
            l.length + ((v :: []) ++ its.flatMap f).length - 1000 := by
          simp only [List.length_append, List.length_cons, List.length_nil]
          omega
        rw [if_neg hc1, ih (l ++ [v]) hc2, List.append_assoc, hidx]
      · have hl2 : l.length = 1000 := by omega
        have hne : l ≠ [] := by
          intro hc
          rw [hc] at hl2
          simp at hl2
        have hc1 : 1000 < (l ++ [v]).length := by
          simp only [List.length_append, List.length_cons, List.length_nil]
          omega
        have hlen2 : (l.tail ++ [v]).length = 1000 := by
          simp only [List.length_append, List.length_tail, List.length_cons,
            List.length_nil]
          omega
        have hc2 : (l.tail ++ [v]).length ≤ 1000 := by rw [hlen2]
        rw [if_pos hc1, List.tail_append_singleton_of_ne_nil hne,
          ih (l.tail ++ [v]) hc2]
        have h1 : (l.tail ++ [v]).length + (its.flatMap f).length - 1000 =
            (its.flatMap f).length := by
          rw [hlen2]; omega
        have h2 : l.length + ((v :: []) ++ its.flatMap f).length - 1000 =
            (its.flatMap f).length + 1 := by
          simp only [List.length_append, List.length_cons, List.length_nil]
          omega
        rw [h1, h2, List.append_assoc]
        exact (drop_succ_via_tail _ _ hne _).symm

theorem monitor_project (key : String) (its : List IterData) (s : MetricsState) :
    (its.foldl (fun st it => monitorIteration it st) s).systemMetrics key =
      its.foldl (fun acc it =>
        if 1000 < (acc ++
            ((iterEntries it).filter (fun kv => kv.1 = key)).map (·.2)).length
        then (acc ++
            ((iterEntries it).filter (fun kv => kv.1 = key)).map (·.2)).tail
        else acc ++
            ((iterEntries it).filter (fun kv => kv.1 = key)).map (·.2))
        (s.systemMetrics key) := by
  induction its generalizing s with
  | nil => rfl
  | cons it its ih =>
    simp only [List.foldl_cons]
    rw [ih (monitorIteration it s), monitorIteration_systemMetrics]

theorem monitor_fold_series (key : String) (its : List IterData)
    (s : MetricsState) (h : (s.systemMetrics key).length ≤ 1000) :
    ((its.foldl (fun st it => monitorIteration it st) s).systemMetrics key) =
      (s.systemMetrics key ++ keyValues key its).drop
        ((s.systemMetrics key).length + (keyValues key its).length - 1000) := by
  rw [monitor_project]
  exact trim_fold (fun it => ((iterEntries it).filter
      (fun kv => kv.1 = key)).map (·.2)) its
    (fun it => by simpa using nodup_keys_filter_le_one _ (iterEntries_keys_nodup it) key)
    (s.systemMetrics key) h

/-- C5: for every metric key and every run of sampler iterations, the stored
snapshot series never exceeds 1000 entries, and eviction is first-in
first-out: the series always equals the most recent min(n, 1000) appended
points. -/
theorem resource_series_capped (its : List IterData) (key : String) :
    ((its.foldl (fun st it => monitorIteration it st)
        initialState).systemMetrics key) =
      (keyValues key its).drop ((keyValues key its).length - 1000) ∧
    ((its.foldl (fun st it => monitorIteration it st)
        initialState).systemMetrics key).length =
      min (keyValues key its).length 1000 ∧
    ((its.foldl (fun st it => monitorIteration it st)
        initialState).systemMetrics key).length ≤ 1000 := by
  have h := monitor_fold_series key its initialState (by simp [initialState])
  have h0 : initialState.systemMetrics key = [] := rfl
  rw [h0] at h
  simp only [List.nil_append, List.length_nil, Nat.zero_add] at h
  refine ⟨h, ?_, ?_⟩
  · rw [h, List.length_drop]
    omega
  · rw [h, List.length_drop]
    omega

/-- Witness: the first initial launch of a concrete run uses pool index 0. -/
theorem driver_launch_indices_witness :
    (concurrentTestLaunches 5 2 [1]).launches.getD 0 0 = 0 % 5 :=
  (driver_launch_indices 5 2 [1]).2 0 (by decide)

theorem stepsUpTo_succ (a : RequestRecord) (k : Nat) (s : MetricsState) :
    stepsUpTo a (k + 1) s = bodyEffect a (k + 1) (stepsUpTo a k s) := by
  simp [stepsUpTo, List.range'_concat, List.foldl_append, Nat.add_comm]

theorem stepsUpTo_ten (a : RequestRecord) (s : MetricsState) :
    (stepsUpTo a 10 s).1 = recordRequest a s := by
  show (bodyEffect a 10 (stepsUpTo a 9 s)).1 = recordRequest a s
  cases hc : (!a.success && truthyStr a.error) <;>
    simp only [bodyEffect, recordRequest, hc] <;> rfl

theorem applyCalls_concat (calls : List RequestRecord) (x : RequestRecord)
    (s : MetricsState) :
    applyCalls (calls ++ [x]) s = recordRequest x (applyCalls calls s) := by
  simp [applyCalls, List.foldl_append]

theorem recordRequest_cost_total (a : RequestRecord) (s : MetricsState)
    (h : a.requestType ≠ "total") :
    (recordRequest a s).costMetrics "total" = s.costMetrics "total" + a.cost := by
  have h2 : ¬ ("total" = a.requestType) := fun hh => h hh.symm
  simp only [recordRequest]
  split <;> simp [updMap, h2]

theorem applyCalls_length (calls : List RequestRecord) (s : MetricsState) :
    (applyCalls calls s).requestMetrics.length =
      s.requestMetrics.length + calls.length := by
  rw [applyCalls_requestMetrics]
  simp

theorem applyCalls_cost_total (calls : List RequestRecord) (s : MetricsState)
    (h : ∀ a ∈ calls, a.requestType ≠ "total") :
    (applyCalls calls s).costMetrics "total" =
      s.costMetrics "total" + (calls.map (·.cost)).sum := by
  induction calls generalizing s with
  | nil => simp [applyCalls]
  | cons c cs ih =>
    have hc : c.requestType ≠ "total" := h c (by simp)
    have hcs : ∀ a ∈ cs, a.requestType ≠ "total" := fun a ha => h a (by simp [ha])
    show (applyCalls cs (recordRequest c s)).costMetrics "total" = _
    rw [ih (recordRequest c s) hcs, recordRequest_cost_total c s hc]
    simp [add_assoc]

theorem execTrace_nil (args : List RequestRecord) (c : Config) :
    execTrace args [] c = some c := rfl

theorem execTrace_cons (args : List RequestRecord) (i : Nat) (tr : List Nat)
    (c : Config) :
    execTrace args (i :: tr) c =
      match stepThread args i c with
      | none => none
      | some c2 => execTrace args tr c2 := by
  show (tr.foldl (fun oc j => oc.bind (stepThread args j))
      ((some c).bind (stepThread args i))) = _
  cases h : stepThread args i c with
  | none =>
    simp only [Option.bind, h]
    induction tr with
    | nil => rfl
    | cons j tr ih => simpa using ih
  | some c2 => simp [Option.bind, h, execTrace]

theorem bodyEffect_align (a : RequestRecord) (pc : Nat) (hpc1 : 1 ≤ pc)
    (hpc10 : pc ≤ 10) (r : ℚ) (base : MetricsState)
    (hr : (pc = 7 ∨ pc = 9) → r = (stepsUpTo a (pc - 1) base).2) :
    (bodyEffect a pc ((stepsUpTo a (pc - 1) base).1, r)).1 =
      (stepsUpTo a pc base).1 ∧
    ((pc = 6 ∨ pc = 8) →
      (bodyEffect a pc ((stepsUpTo a (pc - 1) base).1, r)).2 =
        (stepsUpTo a pc base).2) := by
  interval_cases pc
  · exact ⟨rfl, fun h => absurd h (by decide)⟩
  · exact ⟨rfl, fun h => absurd h (by decide)⟩
  · exact ⟨rfl, fun h => absurd h (by decide)⟩
  · exact ⟨rfl, fun h => absurd h (by decide)⟩
  · exact ⟨rfl, fun h => absurd h (by decide)⟩
  · exact ⟨rfl, fun _ => rfl⟩
  · have hr2 := hr (Or.inl rfl)
    subst hr2
    exact ⟨rfl, fun h => absurd h (by decide)⟩
  · exact ⟨rfl, fun _ => rfl⟩
  · have hr2 := hr (Or.inr rfl)
    subst hr2
    exact ⟨rfl, fun h => absurd h (by decide)⟩
  · refine ⟨?_, fun h => absurd h (by decide)⟩
    show (bodyEffect a 10 ((stepsUpTo a 9 base).1, r)).1 =
      (bodyEffect a 10 (stepsUpTo a 9 base)).1
    cases hc : (!a.success && truthyStr a.error) <;>
      simp only [bodyEffect, hc] <;> rfl

theorem getD_set_self {α : Type} (l : List α) (i : Nat) (hi : i < l.length)
    (v d : α) : (l.set i v).getD i d = v := by
  simp [List.getD_eq_getElem?_getD, List.getElem?_set_self hi]

theorem getD_set_ne {α : Type} (l : List α) (i j : Nat) (h : j ≠ i)
    (v d : α) : (l.set i v).getD j d = l.getD j d := by
  simp [List.getD_eq_getElem?_getD, List.getElem?_set_ne (fun hh => h hh.symm)]

theorem getD_replicate_pc (n j : Nat) :
    ((List.replicate n 0).getD j 13 : Nat) = if j < n then 0 else 13 := by
  simp only [List.getD_eq_getElem?_getD, List.getElem?_replicate]
  split <;> rfl

theorem RecInv_init (args : List RequestRecord) (s0 : MetricsState) :
    RecInv args s0 (initConfig args s0) := by
  refine ⟨by simp [initConfig], by simp [initConfig], [], List.nodup_nil, ?_, ?_⟩
  · intro j
    simp only [List.not_mem_nil, false_iff, not_and]
    intro hj
    show (List.replicate args.length 0).getD j 13 ≠ 12
    rw [getD_replicate_pc, if_pos hj]
    omega
  · show (∀ j, j < args.length →
        (List.replicate args.length 0).getD j 13 = 0 ∨
          (List.replicate args.length 0).getD j 13 = 12) ∧
      s0 = applyCalls ([].map (fun j => args.getD j dfltRecord)) s0
    refine ⟨?_, rfl⟩
    intro j hj
    rw [getD_replicate_pc, if_pos hj]
    left
    rfl

theorem stepThread_preserves (args : List RequestRecord) (s0 : MetricsState)
    (i : Nat) (c c2 : Config) (hstep : stepThread args i c = some c2)
    (hinv : RecInv args s0 c) : RecInv args s0 c2 := by
  obtain ⟨hplen, hrlen, done, hnd, hdone, hlock⟩ := hinv
  unfold stepThread at hstep
  cases hgi : c.pcs[i]? with
  | none =>
    rw [hgi] at hstep
    exact absurd hstep (by simp)
  | some pc =>
  simp only [hgi] at hstep
  obtain ⟨hilt, -⟩ := List.getElem?_eq_some_iff.mp hgi
  have hin : i < args.length := hplen ▸ hilt
  have hirlt : i < c.regs.length := hrlen ▸ hin
  have hpcval : c.pcs.getD i 13 = pc := by
    simp [List.getD_eq_getElem?_getD, hgi]
  by_cases hpc0 : pc = 0
  · subst hpc0
    rw [if_pos rfl] at hstep
    cases hlk : c.lock with
    | some i0 => rw [hlk] at hstep; cases hstep
    | none =>
    rw [hlk] at hstep
    injection hstep with hc2
    subst hc2
    rw [hlk] at hlock
    obtain ⟨hall, hstore⟩ := hlock
    have hinotdone : i ∉ done := by
      intro hmem
      have h2 := (hdone i).mp hmem
      rw [hpcval] at h2
      omega
    have hgd : (c.pcs.set i 1).getD i 13 = 1 := getD_set_self _ _ hilt _ _
    refine ⟨by simpa using hplen, by simpa using hrlen, done, hnd, ?_, ?_⟩
    · intro j
      show j ∈ done ↔ j < args.length ∧ (c.pcs.set i 1).getD j 13 = 12
      by_cases hj : j = i
      · subst hj
        rw [hgd]
        constructor
        · intro hmem
          exact absurd hmem hinotdone
        · rintro ⟨-, h12⟩
          omega
      · rw [getD_set_ne _ _ _ hj]
        exact hdone j
    · show i < args.length ∧ i ∉ done ∧
        1 ≤ (c.pcs.set i 1).getD i 13 ∧ (c.pcs.set i 1).getD i 13 ≤ 11 ∧
        (∀ j, j < args.length → j ≠ i →
          (c.pcs.set i 1).getD j 13 = 0 ∨ (c.pcs.set i 1).getD j 13 = 12) ∧
        c.store = (stepsUpTo (args.getD i dfltRecord)
          ((c.pcs.set i 1).getD i 13 - 1)
          (applyCalls (done.map fun j => args.getD j dfltRecord) s0)).1 ∧
        (((c.pcs.set i 1).getD i 13 = 7 ∨ (c.pcs.set i 1).getD i 13 = 9) →
          c.regs.getD i 0 = (stepsUpTo (args.getD i dfltRecord)
            ((c.pcs.set i 1).getD i 13 - 1)
            (applyCalls (done.map fun j => args.getD j dfltRecord) s0)).2)
      rw [hgd]
      refine ⟨hin, hinotdone, le_refl 1, by omega, ?_, ?_, ?_⟩
      · intro j hj hji
        rw [getD_set_ne _ _ _ hji]
        exact hall j hj
      · exact hstore
      · rintro (h | h) <;> omega
  · rw [if_neg hpc0] at hstep
    by_cases hpc11 : pc = 11
    · subst hpc11
      rw [if_pos rfl] at hstep
      by_cases hli : c.lock = some i
      · rw [if_pos hli] at hstep
        injection hstep with hc2
        subst hc2
        rw [hli] at hlock
        obtain ⟨hin2, hnotdone, hge1, hle11, hothers, hstore, hreg⟩ := hlock
        rw [hpcval] at hstore
        rw [stepsUpTo_ten] at hstore
        have hgd : (c.pcs.set i 12).getD i 13 = 12 := getD_set_self _ _ hilt _ _
        refine ⟨by simpa using hplen, by simpa using hrlen, done ++ [i], ?_, ?_, ?_⟩
        · rw [List.nodup_append]
          exact ⟨hnd, List.nodup_singleton i, by
            intro x hx
            simp only [List.mem_singleton]
            intro hxi
            subst hxi
            exact hnotdone hx⟩
        · intro j
          show j ∈ done ++ [i] ↔ j < args.length ∧
            (c.pcs.set i 12).getD j 13 = 12
          rw [List.mem_append, List.mem_singleton]
          by_cases hj : j = i
          · subst hj
            rw [hgd]
            constructor
            · intro _
              exact ⟨hin, rfl⟩
            · intro _
              right
              rfl
          · rw [getD_set_ne _ _ _ hj]
            constructor
            · rintro (hmem | hji)
              · exact (hdone j).mp hmem
              · exact absurd hji hj
            · intro h2
              left
              exact (hdone j).mpr h2
        · show (∀ j, j < args.length →
              (c.pcs.set i 12).getD j 13 = 0 ∨ (c.pcs.set i 12).getD j 13 = 12) ∧
            c.store = applyCalls ((done ++ [i]).map fun j =>
              args.getD j dfltRecord) s0
          constructor
          · intro j hj
            by_cases hji : j = i
            · subst hji
              rw [hgd]
              right
              rfl
            · rw [getD_set_ne _ _ _ hji]
              exact hothers j hj hji
          · rw [List.map_append, List.map_singleton, applyCalls_concat]
            exact hstore
      · rw [if_neg hli] at hstep
        cases hstep
    · rw [if_neg hpc11] at hstep
      by_cases hrange : 1 ≤ pc ∧ pc ≤ 10
      · rw [if_pos hrange] at hstep
        by_cases hli : c.lock = some i
        · rw [if_pos hli] at hstep
          injection hstep with hc2
          subst hc2
          rw [hli] at hlock
          obtain ⟨hin2, hnotdone, hge1, hle11, hothers, hstore, hreg⟩ := hlock
          rw [hpcval] at hstore hreg
          have halign := bodyEffect_align (args.getD i dfltRecord) pc
            hrange.1 hrange.2 (c.regs.getD i 0)
            (applyCalls (done.map fun j => args.getD j dfltRecord) s0) hreg
          have hgd : (c.pcs.set i (pc + 1)).getD i 13 = pc + 1 :=
            getD_set_self _ _ hilt _ _
          refine ⟨by simpa using hplen, by simpa using hrlen, done, hnd, ?_, ?_⟩
          · intro j
            show j ∈ done ↔ j < args.length ∧
              (c.pcs.set i (pc + 1)).getD j 13 = 12
            by_cases hj : j = i
            · subst hj
              rw [hgd]
              constructor
              · intro hmem
                exact absurd hmem hnotdone
              · rintro ⟨-, h12⟩
                omega
            · rw [getD_set_ne _ _ _ hj]
              exact hdone j
          · rw [hli]
            show i < args.length ∧ i ∉ done ∧
              1 ≤ (c.pcs.set i (pc + 1)).getD i 13 ∧
              (c.pcs.set i (pc + 1)).getD i 13 ≤ 11 ∧
              (∀ j, j < args.length → j ≠ i →
                (c.pcs.set i (pc + 1)).getD j 13 = 0 ∨
                  (c.pcs.set i (pc + 1)).getD j 13 = 12) ∧
              (bodyEffect (args.getD i dfltRecord) pc
                (c.store, c.regs.getD i 0)).1 =
                (stepsUpTo (args.getD i dfltRecord)
                  ((c.pcs.set i (pc + 1)).getD i 13 - 1)
                  (applyCalls (done.map fun j => args.getD j dfltRecord) s0)).1 ∧
              (((c.pcs.set i (pc + 1)).getD i 13 = 7 ∨
                  (c.pcs.set i (pc + 1)).getD i 13 = 9) →
                (c.regs.set i (bodyEffect (args.getD i dfltRecord) pc
                  (c.store, c.regs.getD i 0)).2).getD i 0 =
                  (stepsUpTo (args.getD i dfltRecord)
                    ((c.pcs.set i (pc + 1)).getD i 13 - 1)
                    (applyCalls (done.map fun j =>
                      args.getD j dfltRecord) s0)).2)
            rw [hgd, Nat.add_sub_cancel]
            refine ⟨hin, hnotdone, by omega, by omega, ?_, ?_, ?_⟩
            · intro j hj hji
              rw [getD_set_ne _ _ _ hji]
              exact hothers j hj hji
            · rw [hstore]
              exact halign.1
            · intro h7or9
              rw [getD_set_self _ _ hirlt, hstore]
              exact halign.2 (by omega)
        · rw [if_neg hli] at hstep
          cases hstep
      · rw [if_neg hrange] at hstep
        cases hstep

theorem execTrace_preserves (args : List RequestRecord) (s0 : MetricsState)
    (trace : List Nat) (c c2 : Config)
    (hexec : execTrace args trace c = some c2) (hinv : RecInv args s0 c) :
    RecInv args s0 c2 := by
  induction trace generalizing c with
  | nil =>
    rw [execTrace_nil] at hexec
    injection hexec with h
    subst h
    exact hinv
  | cons i tr ih =>
    rw [execTrace_cons] at hexec
    cases hs : stepThread args i c with
    | none =>
      rw [hs] at hexec
      exact absurd hexec (by simp)
    | some cmid =>
      simp only [hs] at hexec
      exact ih cmid hexec (stepThread_preserves args s0 i c cmid hs hinv)

theorem range_map_getD (args : List RequestRecord) :
    (List.range args.length).map (fun j => args.getD j dfltRecord) = args := by
  apply List.ext_getElem (by simp)
  intro k h1 h2
  simp only [List.getElem_map, List.getElem_range]
  rw [List.getD_eq_getElem _ _ h2]

/-- C4 amended: any complete lock-respecting interleaving of N worker
threads, each performing one `record_request` call on categories other than
the reserved aggregate key "total", is equivalent to some serial order of the
N calls: the store ends with exactly N outcome records and the grand-total
cost entry equals the exact sum of the N individual costs, with no lost
updates. -/
theorem concurrent_record_serializable (args : List RequestRecord)
    (trace : List Nat) (final : Config)
    (hexec : execTrace args trace (initConfig args initialState) = some final)
    (hdone : ∀ j, j < args.length → final.pcs.getD j 13 = 12)
    (hcat : ∀ a ∈ args, a.requestType ≠ "total") :
    ∃ perm : List RequestRecord,
      perm.Perm args ∧
      final.store = applyCalls perm initialState ∧
      final.store.requestMetrics.length = args.length ∧
      final.store.costMetrics "total" = (args.map (·.cost)).sum := by
  have hinv := execTrace_preserves args initialState trace _ final hexec
    (RecInv_init args initialState)
  obtain ⟨hplen, hrlen, done, hnd, hdonemem, hlock⟩ := hinv
  cases hlk : final.lock with
  | some i =>
    rw [hlk] at hlock
    obtain ⟨hin2, -, -, hle11, -⟩ := hlock
    have h12 := hdone i hin2
    omega
  | none =>
  rw [hlk] at hlock
  obtain ⟨-, hstore⟩ := hlock
  have hperm : done.Perm (List.range args.length) := by
    rw [List.perm_ext_iff_of_nodup hnd (List.nodup_range args.length)]
    intro j
    rw [List.mem_range, hdonemem j]
    constructor
    · rintro ⟨h1, -⟩
      exact h1
    · intro h1
      exact ⟨h1, hdone j h1⟩
  have hpermmap : (done.map (fun j => args.getD j dfltRecord)).Perm args := by
    have h2 := hperm.map (fun j => args.getD j dfltRecord)
    rwa [range_map_getD] at h2
  refine ⟨done.map (fun j => args.getD j dfltRecord), hpermmap, hstore, ?_, ?_⟩
  · rw [hstore, applyCalls_length]
    have hlen2 := hpermmap.length_eq
    simp only [List.length_map] at hlen2
    simp [initialState, hlen2]
  · rw [hstore, applyCalls_cost_total _ _
      (fun a ha => hcat a (hpermmap.mem_iff.mp ha))]
    have hsum : ((done.map (fun j => args.getD j dfltRecord)).map (·.cost)).sum =
        (args.map (·.cost)).sum := (hpermmap.map (·.cost)).sum_eq
    rw [hsum]
    show (0 : ℚ) + _ = _
    rw [zero_add]

/-- C4 counterexample: a single task whose request category is the reserved
aggregate key "total" makes the grand-total entry receive the cost twice
(once as the per-category accumulation, once as the grand total), so the
grand-total entry (2) differs from the sum of individual costs (1) even in a
fully serial, lock-respecting run. -/
theorem grand_total_claim_fails :
    ∃ final : Config,
      execTrace [⟨0, "total", 0, true, 0, 0, 1, none⟩]
        [0, 0, 0, 0, 0, 0, 0, 0, 0, 0, 0, 0]
        (initConfig [⟨0, "total", 0, true, 0, 0, 1, none⟩] initialState) =
        some final ∧
      (∀ j, j < 1 → final.pcs.getD j 13 = 12) ∧
      final.store.costMetrics "total" = 2 ∧
      ([(⟨0, "total", 0, true, 0, 0, 1, none⟩ : RequestRecord)].map
        (·.cost)).sum = 1 ∧
      final.store.costMetrics "total" ≠
        ([(⟨0, "total", 0, true, 0, 0, 1, none⟩ : RequestRecord)].map
          (·.cost)).sum := by
  refine ⟨(execTrace [⟨0, "total", 0, true, 0, 0, 1, none⟩]
      [0, 0, 0, 0, 0, 0, 0, 0, 0, 0, 0, 0]
      (initConfig [⟨0, "total", 0, true, 0, 0, 1, none⟩] initialState)).getD
        (initConfig [] initialState),
    rfl, by decide, by decide, by decide, by decide⟩

/-- Witness: a serializable two-thread run on categories "a" and "b" ends
with both records stored. -/
theorem concurrent_record_serializable_witness :
    ∃ perm : List RequestRecord,
      perm.Perm [⟨0, "a", 1, true, 0, 0, 1, none⟩,
                 ⟨0, "b", 2, true, 0, 0, 2, none⟩] ∧
      ((execTrace [⟨0, "a", 1, true, 0, 0, 1, none⟩,
                   ⟨0, "b", 2, true, 0, 0, 2, none⟩]
          (List.replicate 12 0 ++ List.replicate 12 1)
          (initConfig [⟨0, "a", 1, true, 0, 0, 1, none⟩,
                       ⟨0, "b", 2, true, 0, 0, 2, none⟩] initialState)).getD
        (initConfig [] initialState)).store.requestMetrics.length = 2 := by
  obtain ⟨perm, hp, -, hlen, -⟩ := concurrent_record_serializable
    [⟨0, "a", 1, true, 0, 0, 1, none⟩, ⟨0, "b", 2, true, 0, 0, 2, none⟩]
    (List.replicate 12 0 ++ List.replicate 12 1)
    ((execTrace [⟨0, "a", 1, true, 0, 0, 1, none⟩,
                 ⟨0, "b", 2, true, 0, 0, 2, none⟩]
        (List.replicate 12 0 ++ List.replicate 12 1)
        (initConfig [⟨0, "a", 1, true, 0, 0, 1, none⟩,
                     ⟨0, "b", 2, true, 0, 0, 2, none⟩] initialState)).getD
      (initConfig [] initialState))
    (by rfl) (by decide) (by decide)
  exact ⟨perm, hp, hlen⟩
